import Mathlib

/-!
Verification of the speech2text repository's specification against its code.

Each Python function relevant to the frozen claims is shallowly embedded as a
Lean definition: pure string manipulation works on `List Char`, Python floats
are modelled as exact rationals (`ℚ`), fallible code returns `Option` or
`Except`, and the effectful parts (file system, network, LLM responses) are
passed in explicitly as values so the control flow around them stays faithful
to the source.
-/

/- ### Shared Python string helpers -/

/-- Python's `str.strip()` whitespace set: space, tab, newline, carriage
return, vertical tab, form feed. -/
def isPyWs (c : Char) : Bool :=
  c = ' ' || c = '\t' || c = '\n' || c = '\r' || c = Char.ofNat 11 || c = Char.ofNat 12

/-- Python `str.strip()`: drop leading and trailing whitespace characters. -/
def pyStrip (l : List Char) : List Char :=
  ((l.dropWhile isPyWs).reverse.dropWhile isPyWs).reverse

/-- Python `sub in s` substring test: some position of `s` (including the
end) starts with `sub`. -/
def containsSub (sub l : List Char) : Bool :=
  (List.range (l.length + 1)).any fun k => sub.isPrefixOf (l.drop k)

/-- Fuel-driven core of Python `str.split(sep)` for a non-empty separator:
split at every non-overlapping occurrence, scanning left to right, keeping
empty parts. The fuel only bounds recursion; `splitOn` supplies enough. -/
def splitOnF (sep : List Char) : ℕ → List Char → List (List Char)
  | _, [] => [[]]
  | 0, l => [l]
  | fuel + 1, c :: rest =>
    if sep ≠ [] ∧ sep.isPrefixOf (c :: rest) then
      [] :: splitOnF sep fuel ((c :: rest).drop sep.length)
    else
      match splitOnF sep fuel rest with
      | [] => [[c]]
      | h :: t => (c :: h) :: t

/-- Python `str.split(sep)` for a non-empty separator. -/
def splitOn (sep l : List Char) : List (List Char) :=
  splitOnF sep l.length l

/-- Value of a run of ASCII digits, most significant first. -/
def digitsVal (ds : List Char) : ℕ :=
  ds.foldl (fun a c => 10 * a + (c.toNat - '0'.toNat)) 0

/-- Value of a run of ASCII digits read as a decimal fraction (`"25"` is
`0.25`). -/
def fracVal (ds : List Char) : ℚ :=
  ds.foldr (fun c a => (((c.toNat - '0'.toNat : ℕ) : ℚ) + a) / 10) 0

/-- Python `float(s)` on the plain decimal grammar the repository feeds it:
optional sign, then `digits`, `digits.`, `digits.digits` or `.digits`.
(Exponents, `inf`/`nan`, underscores and surrounding whitespace are outside
the subset the parsed strings can contain.) Returns `none` where Python's
`float` raises `ValueError`. -/
def pyFloat (l : List Char) : Option ℚ :=
  let (sgn, body) : ℚ × List Char :=
    match l with
    | '+' :: r => (1, r)
    | '-' :: r => (-1, r)
    | _ => (1, l)
  let ds := body.takeWhile Char.isDigit
  let rest := body.dropWhile Char.isDigit
  match ds, rest with
  | [], '.' :: fs => if fs ≠ [] ∧ fs.all Char.isDigit then some (sgn * fracVal fs) else none
  | [], _ => none
  | _ :: _, [] => some (sgn * digitsVal ds)
  | _ :: _, '.' :: fs => if fs.all Char.isDigit then some (sgn * (digitsVal ds + fracVal fs)) else none
  | _ :: _, _ => none

/- ### src/utils.py and src/audio2text/utils.py: size checks (C5, C9) -/

namespace SpeechUtils

/-- Embeds `check_file_size` from `src/utils.py` (lines 118-130): the file
size in MB (true division, modelled exactly in `ℚ`) compared against the
limit; returns `true` when the file is over the limit. -/
def check_file_size (sizeBytes : ℕ) (max_size_mb : ℕ) : Bool :=
  decide ((sizeBytes : ℚ) / (1024 * 1024) > (max_size_mb : ℚ))

end SpeechUtils

namespace Audio2TextUtils

/-- Embeds `check_file_size` from `src/audio2text/utils.py` (lines 45-57),
textually identical to the `src/utils.py` variant. -/
def check_file_size (sizeBytes : ℕ) (max_size_mb : ℕ) : Bool :=
  decide ((sizeBytes : ℚ) / (1024 * 1024) > (max_size_mb : ℚ))

end Audio2TextUtils

/-- Outcome of loading the audio inside `check_file_constraints`:
`pydub` missing (`ImportError`, swallowed by the inner handler), any other
decoding failure (escapes to the outer handler), or a decoded audio whose
length is `lenMs` milliseconds. -/
inductive AudioLoad where
  | importError
  | decodeError
  | ok (lenMs : ℕ)
deriving DecidableEq

/-- Message component of `check_file_constraints`' result (the Python code
formats a string; only its identity matters to the claims). -/
inductive CheckMsg where
  | sizeExceeded
  | durationExceeded
  | passed
  | checkFailed
deriving DecidableEq

/-- Embeds `check_file_constraints` (identical in `src/utils.py` lines 88-116
and `src/audio2text/utils.py` lines 15-43): reject files over
`25 * 1024 * 1024` bytes; with `diarize` set, additionally decode the audio
and reject durations (milliseconds / 1000) over 8 minutes; an `ImportError`
from `pydub` skips the duration check; any other exception is caught by the
outer handler and reported as a failed check. -/
def check_file_constraints (sizeBytes : ℕ) (load : AudioLoad) (diarize : Bool) :
    Bool × CheckMsg :=
  if sizeBytes > 25 * 1024 * 1024 then
    (false, .sizeExceeded)
  else if diarize then
    match load with
    | .importError => (true, .passed)
    | .decodeError => (false, .checkFailed)
    | .ok ms =>
      if ((ms : ℚ) / 1000) > 8 * 60 then (false, .durationExceeded)
      else (true, .passed)
  else
    (true, .passed)

/- ### src/main_app.py: cost table (C8) -/

/-- Per-model USD prices per 1M tokens, from `MODEL_CONFIG` in
`src/main_app.py` (lines 45-89). -/
structure ModelPrices where
  display_name : String
  input : ℚ
  cached_input : ℚ
  output : ℚ
deriving DecidableEq

/-- The `MODEL_CONFIG` table of `src/main_app.py` as a lookup. -/
def MODEL_CONFIG (name : String) : Option ModelPrices :=
  match name with
  | "o4-mini" => some ⟨"o4-mini", 0.15, 0.075, 0.60⟩
  | "gpt-4o" => some ⟨"gpt-4o", 2.50, 1.25, 10.00⟩
  | "gpt-4o-mini" => some ⟨"gpt-4o-mini", 0.15, 0.075, 0.60⟩
  | "o1-mini" => some ⟨"o1-mini", 1.10, 0.55, 4.40⟩
  | "o3-mini" => some ⟨"o3-mini", 1.10, 0.55, 4.40⟩
  | "gemini-2.5-pro-preview-05-06" => some ⟨"Gemini 2.5 Pro Experimental", 0, 0, 0⟩
  | "gemini-2.5-flash-preview-04-17" => some ⟨"Gemini 2.5 Flash Preview", 0, 0, 0⟩
  | _ => none

/-- The constant `USD_TO_NTD` from `src/main_app.py` line 91. -/
def USD_TO_NTD : ℚ := 31.5

/-- The breakdown string the code formats, kept as the two costs it shows. -/
inductive CostDetails where
  | unsupported
  | breakdown (inputCost outputCost : ℚ)
deriving DecidableEq

/-- Embeds `calculate_cost` from `src/main_app.py` (lines 166-200); Python
float arithmetic is modelled exactly in `ℚ`. Returns
(USD cost, NTD cost, details). -/
def calculate_cost (input_tokens output_tokens : ℕ) (model_name : String)
    (is_cached : Bool) : ℚ × ℚ × CostDetails :=
  match MODEL_CONFIG model_name with
  | none => (0, 0, .unsupported)
  | some m =>
    let input_price := if is_cached then m.cached_input else m.input
    let input_cost := (input_tokens : ℚ) / 1000000 * input_price
    let output_cost := (output_tokens : ℚ) / 1000000 * m.output
    (input_cost + output_cost, (input_cost + output_cost) * USD_TO_NTD,
      .breakdown input_cost output_cost)

/- ### Closest-image resolution (C1) -/

/-- Python `min(keys, key=lambda x: abs(x - target))`: fold keeping the
current element unless a later one has a strictly smaller key, so the first
minimiser wins; `none` on an empty iterable (Python raises there, which the
callers guard against). -/
def pyMinKey (target : ℚ) : List ℚ → Option ℚ
  | [] => none
  | k :: ks => some (ks.foldl (fun c x => if |x - target| < |c - target| then x else c) k)

/-- Embeds the image-resolution core of
`TranscriptSlidesProcessor.save_markdown` (`src/merge_transcript_slides.py`
lines 272-281): the stored timestamp closest to the extracted target time is
used, and the placeholder line is replaced only when the difference is
strictly below the 30-second tolerance (`abs(closest - target) < 30`);
returns the timestamp whose image is embedded, or `none` when the line is
left without an image. -/
def save_markdown_match (slide_images : List (ℚ × String)) (target_time : ℚ) : Option ℚ :=
  match pyMinKey target_time (slide_images.map Prod.fst) with
  | none => none
  | some closest => if |closest - target_time| < 30 then some closest else none

/-- Embeds the decision core of `MultiSlidesProcessor._insert_image_markdown`
(`src/merge_transcript_multi_slides.py` lines 421-445): same closest-match
selection over `all_slide_images` (which maps a timestamp to the slide images
of every deck at that time) with the same strict `< 30` tolerance. -/
def insert_image_markdown_match (all_slide_images : List (ℚ × List (ℕ × String)))
    (target_time : ℚ) : Option ℚ :=
  match pyMinKey target_time (all_slide_images.map Prod.fst) with
  | none => none
  | some closest => if |closest - target_time| < 30 then some closest else none

/-- Embeds the decision core of `MultiSlidesProcessor._insert_image_docx`
(`src/merge_transcript_multi_slides.py` lines 447-476), identical to the
Markdown variant's selection and tolerance test. -/
def insert_image_docx_match (all_slide_images : List (ℚ × List (ℕ × String)))
    (target_time : ℚ) : Option ℚ :=
  match pyMinKey target_time (all_slide_images.map Prod.fst) with
  | none => none
  | some closest => if |closest - target_time| < 30 then some closest else none

/- ### src/merge_transcript_multi_slides.py: parse_time_format (C2) -/

/-- Exactly two ASCII digits, returning their value and the rest of the
input. -/
def parseTwoDigits : List Char → Option (ℕ × List Char)
  | a :: b :: r =>
    if a.isDigit ∧ b.isDigit then
      some (10 * (a.toNat - '0'.toNat) + (b.toNat - '0'.toNat), r)
    else none
  | _ => none

/-- Embeds `re.match(r'(\d{1,2}):(\d{2}):(\d{2})', s)` and the
`hours*3600 + minutes*60 + seconds` the code computes from it. The
one-or-two-digit hour group is greedy with backtracking (two digits tried
first); trailing input is ignored as `re.match` only anchors the start. -/
def matchHMS (l : List Char) : Option ℕ :=
  (do
    let (h, r1) ← parseTwoDigits l
    let (m, r3) ← match r1 with
      | ':' :: r2 => parseTwoDigits r2
      | _ => none
    match r3 with
    | ':' :: r4 => do
      let (s, _) ← parseTwoDigits r4
      pure (h * 3600 + m * 60 + s)
    | _ => none) <|>
  (match l with
    | a :: ':' :: r2 =>
      if a.isDigit then do
        let (m, r3) ← parseTwoDigits r2
        match r3 with
        | ':' :: r4 => do
          let (s, _) ← parseTwoDigits r4
          pure ((a.toNat - '0'.toNat) * 3600 + m * 60 + s)
        | _ => none
      else none
    | _ => none)

/-- Embeds `re.match(r'(\d+):(\d+\.?\d*)', s)` and the
`minutes*60 + float(group(2))` the code computes: greedy digit run, colon,
then digits with an optional dot and further digits (a trailing dot parses as
`.0`, matching Python `float`). -/
def matchMSS (l : List Char) : Option ℚ :=
  let ds := l.takeWhile Char.isDigit
  match ds, l.dropWhile Char.isDigit with
  | _ :: _, ':' :: r2 =>
    let ss := r2.takeWhile Char.isDigit
    match ss with
    | [] => none
    | _ :: _ =>
      let frac : List Char :=
        match r2.dropWhile Char.isDigit with
        | '.' :: r3 => r3.takeWhile Char.isDigit
        | _ => []
      some ((digitsVal ds : ℚ) * 60 + (digitsVal ss + fracVal frac))
  | _, _ => none

/-- Embeds `re.match(r'(\d+)m([\d.]+)s', s)`: greedy digit run, the letter `m`, a
greedy run of digits and dots, then `s`. Returns the minutes value and the
raw second group (which the code still has to push through `float`, where a
group such as `"2.3.4"` raises `ValueError`). -/
def matchNmS (l : List Char) : Option (ℕ × List Char) :=
  let ds := l.takeWhile Char.isDigit
  match ds, l.dropWhile Char.isDigit with
  | _ :: _, 'm' :: r2 =>
    let run := r2.takeWhile fun c => c.isDigit || c = '.'
    match run, r2.dropWhile fun c => c.isDigit || c = '.' with
    | _ :: _, 's' :: _ => some (digitsVal ds, run)
    | _, _ => none
  | _, _ => none

/-- Embeds `MultiSlidesProcessor.parse_time_format`
(`src/merge_transcript_multi_slides.py` lines 197-243): strip one leading
`t`, then try in order plain `float`, a trailing-`s` float (its `ValueError`
is caught), the `H:MM:SS` regex, the `M:SS` regex and the `NmS.Fs` regex.
`Except.error ()` marks the one uncaught exception path: the final branch's
`float(match.group(2))` raising `ValueError`. -/
def parse_time_format (time_str : List Char) : Except Unit (Option ℚ) :=
  let s := match time_str with
    | 't' :: r => r
    | _ => time_str
  match pyFloat s with
  | some v => .ok (some v)
  | none =>
    match (if s.getLast? = some 's' then pyFloat s.dropLast else none) with
    | some v => .ok (some v)
    | none =>
      match matchHMS s with
      | some n => .ok (some (n : ℚ))
      | none =>
        match matchMSS s with
        | some v => .ok (some v)
        | none =>
          match matchNmS s with
          | some (m, run) =>
            match pyFloat run with
            | some v => .ok (some ((m : ℚ) * 60 + v))
            | none => .error ()
          | none => .ok none

/- ### Inline Markdown formatting for Word export (C3) -/

/-- Attempt to match one of the two-delimiter alternatives `__[^_]+__` or
`\*\*[^*]+\*\*` at the head of the input: two copies of `d`, a non-empty
maximal run of characters other than `d`, then two copies of `d` (the greedy
body cannot backtrack into a closing delimiter, as its characters are
excluded from the body class). Returns the matched text and the rest. -/
def tryDoubleDelim (d : Char) (l : List Char) : Option (List Char × List Char) :=
  match l with
  | a :: b :: rest =>
    if a = d ∧ b = d then
      match rest.takeWhile (fun c => c ≠ d), rest.dropWhile (fun c => c ≠ d) with
      | body@(_ :: _), x :: y :: rem =>
        if x = d ∧ y = d then some (d :: d :: (body ++ [d, d]), rem) else none
      | _, _ => none
    else none
  | _ => none

/-- Attempt to match `_[^_]+_` or `\*[^*]+\*` at the head of the input. -/
def trySingleDelim (d : Char) (l : List Char) : Option (List Char × List Char) :=
  match l with
  | a :: rest =>
    if a = d then
      match rest.takeWhile (fun c => c ≠ d), rest.dropWhile (fun c => c ≠ d) with
      | body@(_ :: _), x :: rem =>
        if x = d then some (d :: (body ++ [d]), rem) else none
      | _, _ => none
    else none
  | _ => none

/-- One position of the scan of
`re.split(r'(__[^_]+__|_[^_]+_|\*\*[^*]+\*\*|\*[^*]+\*)', text)`: the four
alternatives are tried in the pattern's order at the current position. -/
def findMatchAt (l : List Char) : Option (List Char × List Char) :=
  tryDoubleDelim '_' l <|> trySingleDelim '_' l <|>
  tryDoubleDelim '*' l <|> trySingleDelim '*' l

/-- Fuel-driven scan of `re.split` with the capturing alternation: matched
tokens become their own parts, the text between matches is kept (including
empty parts). The fuel only bounds recursion; `splitFormat` supplies enough. -/
def splitFormatF : ℕ → List Char → List Char → List (List Char)
  | _, [], pending => [pending.reverse]
  | 0, l, pending => [pending.reverse ++ l]
  | fuel + 1, c :: rest, pending =>
    match findMatchAt (c :: rest) with
    | some (m, rem) => pending.reverse :: m :: splitFormatF fuel rem []
    | none => splitFormatF fuel rest (c :: pending)

/-- The parts `re.split(r'(__[^_]+__|_[^_]+_|\*\*[^*]+\*\*|\*[^*]+\*)', text)`
produces, in order. -/
def splitFormat (text : List Char) : List (List Char) :=
  splitFormatF text.length text []

/-- One `python-docx` run produced by `_add_formatted_text`: its text and the
style flags set on it. -/
structure DocxRun where
  text : List Char
  bold : Bool
  underline : Bool
  italic : Bool
deriving DecidableEq

/-- The run the `_add_formatted_text` loop body adds for one non-empty part:
classification by leading/trailing marker pair and minimum length, in the
code's order (bold, double underline, single underline, italic, plain). -/
def classifyPart (part : List Char) : DocxRun :=
  if ['*', '*'].isPrefixOf part ∧ ['*', '*'].isSuffixOf part ∧ part.length > 4 then
    ⟨(part.drop 2).take (part.length - 4), true, false, false⟩
  else if ['_', '_'].isPrefixOf part ∧ ['_', '_'].isSuffixOf part ∧ part.length > 4 then
    ⟨(part.drop 2).take (part.length - 4), false, true, false⟩
  else if ['_'].isPrefixOf part ∧ ['_'].isSuffixOf part ∧ part.length > 2 then
    ⟨(part.drop 1).take (part.length - 2), false, true, false⟩
  else if ['*'].isPrefixOf part ∧ ['*'].isSuffixOf part ∧ part.length > 2 then
    ⟨(part.drop 1).take (part.length - 2), false, false, true⟩
  else
    ⟨part, false, false, false⟩

/-- Embeds `_add_formatted_text` (identical in `src/merge_transcript_slides.py`
lines 392-426 and `src/merge_transcript_multi_slides.py` lines 645-679) as the
list of runs it appends to the paragraph: split on the format alternation,
skip empty parts, classify each remaining part. -/
def add_formatted_text (text : List Char) : List DocxRun :=
  (splitFormat text).filterMap fun part =>
    if part = [] then none else some (classifyPart part)

/- ### src/main_app.py: refine_transcript_gemini response parsing (C4) -/

/-- The `[優化後文字]` marker. -/
def optMarker : List Char := "[優化後文字]".toList

/-- The `[重點摘要]` marker. -/
def sumMarker : List Char := "[重點摘要]".toList

/-- The legacy `重點摘要：` delimiter. -/
def legacyMarker : List Char := "重點摘要：".toList

/-- The fixed sentinel `無法生成摘要` used when no summary can be split off. -/
def noSummarySentinel : List Char := "無法生成摘要".toList

/-- Embeds the response-parsing tail of `refine_transcript_gemini`
(`src/main_app.py` lines 329-354) as a function of the model's response text:
`some (corrected, summary)` for a normal return, `none` where an exception
(the `IndexError` from `parts[0].split("[優化後文字]")[1]`) escapes to the
surrounding handler, which logs and returns Python `None`. -/
def refine_transcript_gemini_parse (response_text : List Char) :
    Option (List Char × List Char) :=
  if containsSub optMarker response_text && containsSub sumMarker response_text then
    match (splitOn sumMarker response_text)[0]? with
    | none => none
    | some p0 =>
      match (splitOn optMarker p0)[1]? with
      | none => none
      | some c =>
        match (splitOn sumMarker response_text)[1]? with
        | none => none
        | some p1 => some (pyStrip c, pyStrip p1)
  else
    let parts := splitOn legacyMarker response_text
    if parts.length ≥ 2 then
      match parts[0]?, parts[1]? with
      | some p0, some p1 => some (pyStrip p0, pyStrip p1)
      | _, _ => none
    else
      some (response_text, noSummarySentinel)

/- ### src/main_app.py: fixed-window segmentation (C6) -/

/-- Embeds the fixed-time segmentation loop of `src/main_app.py`
(lines 1327-1361, `MAX_SEGMENT_DURATION = 600`, `OVERLAP_DURATION = 30`) as
the list of `(segment_start, end_time)` second ranges it exports, starting
from `start`: while `start < D`, the segment ends at `min(start + 600, D)`
and begins 30 seconds early except for the first segment; the next iteration
resumes at the segment's (un-overlapped) end. Durations are modelled in `ℚ`. -/
def segmentsFrom (D : ℚ) (start : ℚ) : List (ℚ × ℚ) :=
  if h : start < D then
    ((if 0 < start then start - 30 else start), min (start + 600) D) ::
      segmentsFrom D (min (start + 600) D)
  else []
termination_by (⌈(D - start) / 600⌉).toNat
decreasing_by
  rcases le_or_lt (start + 600) D with h6 | h6
  · rw [min_eq_left h6]
    have h1 : (D - (start + 600)) / 600 = (D - start) / 600 - 1 := by ring
    have h2 : (0 : ℚ) < (D - start) / 600 := div_pos (by linarith) (by norm_num)
    have h3 : (1 : ℤ) ≤ ⌈(D - start) / 600⌉ := by
      have := Int.ceil_pos.mpr h2
      omega
    rw [h1, Int.ceil_sub_one]
    omega
  · rw [min_eq_right h6.le]
    have h2 : (0 : ℚ) < (D - start) / 600 := div_pos (by linarith) (by norm_num)
    have h3 : (1 : ℤ) ≤ ⌈(D - start) / 600⌉ := by
      have := Int.ceil_pos.mpr h2
      omega
    simp only [sub_self, zero_div, Int.ceil_zero]
    omega

/-- The `(start, end)` range the claim attributes to segment `i`. -/
def segSpec (D : ℚ) (i : ℕ) : ℚ × ℚ :=
  ((if i = 0 then 0 else 600 * i - 30), min (600 * (i + 1)) D)

/- ### src/markitdown_utils.py: extract_keywords (C7) -/

/-- Embeds `extract_keywords` (`src/markitdown_utils.py` lines 341-381) as a
function of the chat completion outcome: `none` models any exception from
the API call (caught, logged, and turned into `[]`), `some text` the
response content. The requested `count` only parametrises the prompt sent to
the model; the list comprehension
`[kw.strip() for kw in text.strip().split(chr(10)) if kw.strip()]` never
consults it. -/
def extract_keywords (count : ℕ) (response : Option (List Char)) : List (List Char) :=
  match response with
  | none => []
  | some text =>
    (splitOn ['\n'] (pyStrip text)).filterMap fun kw =>
      if pyStrip kw ≠ [] then some (pyStrip kw) else none

/- ### src/elevenlabs_stt.py: transcribe_audio (C10) -/

/-- Python `re.match(r"^[a-z]{3}$", s)` as a boolean: three lowercase ASCII
letters, where `$` also accepts one trailing newline (CPython's `$`
semantics). -/
def iso639_3_match (s : String) : Bool :=
  match s.toList with
  | [a, b, c] => a.isLower && b.isLower && c.isLower && a.isAlpha && b.isAlpha && c.isAlpha
  | [a, b, c, n] => a.isLower && b.isLower && c.isLower &&
      a.isAlpha && b.isAlpha && c.isAlpha && n = '\n'
  | _ => false

/-- Builds the multipart form fields of `transcribe_audio`
(`src/elevenlabs_stt.py` lines 62-77): the four fixed fields, then — only
when `language_code` is truthy (a non-empty string) — either the validated
`language_code` field or the `ValueError` the function raises before any
file or network access. A falsy `language_code` hits the no-op
`form_data.pop("language_code", None)` branch. -/
def buildFormData (language_code : Option String) (diarize : Bool) :
    Except Unit (List (String × String)) :=
  let base : List (String × String) :=
    [("model_id", "scribe_v1"),
     ("diarize", if diarize then "true" else "false"),
     ("tag_audio_events", "true"),
     ("timestamps_granularity", "word")]
  match language_code with
  | some s =>
    if s ≠ "" then
      if iso639_3_match s then .ok (base ++ [("language_code", s)])
      else .error ()
    else .ok base
  | none => .ok base

/-- The I/O a call to `transcribe_audio` encounters, passed in explicitly:
whether `open(file_path, "rb")` succeeds, whether the POST raises a
request/SSL exception, and otherwise the response's status code and body. -/
structure TranscribeEnv where
  fileReadable : Bool
  requestExn : Bool
  status : ℕ
  body : String
deriving DecidableEq

/-- The observable result of `transcribe_audio`. -/
inductive TranscribeOutcome where
  | raisesValueError
  | returnsNone
  | returnsJson (body : String)
deriving DecidableEq

/-- Embeds `transcribe_audio` (`src/elevenlabs_stt.py` lines 41-111): the
form data (and the language-code `ValueError`) is computed before the `try`
block that opens the file and posts the request; inside it, an unreadable
file, a request/SSL exception, and a `raise_for_status` on a non-200
response are all caught by the `except` clauses, so the function falls
through to `return None`; a 200 response returns its JSON body. -/
def transcribe_audio (language_code : Option String) (diarize : Bool)
    (env : TranscribeEnv) : TranscribeOutcome :=
  match buildFormData language_code diarize with
  | .error _ => .raisesValueError
  | .ok _ =>
    if !env.fileReadable then .returnsNone
    else if env.requestExn then .returnsNone
    else if env.status = 200 then .returnsJson env.body
    else .returnsNone

/-! ### Theorems -/

/-- C9 counterexample (proves the claim's negation): the two `check_file_size`
variants under `src/` are definitionally the same function, so no file and
limit make them disagree. -/
theorem check_file_size_variants_agree_cex :
    SpeechUtils.check_file_size = Audio2TextUtils.check_file_size := rfl

/-- C9 (corrected): rather than disagreeing, the `src/utils.py` and
`src/audio2text/utils.py` variants of `check_file_size` are extensionally
equal, and both use the same polarity: `true` exactly when the size in MB
exceeds the limit. -/
theorem check_file_size_polarity (sizeBytes max_size_mb : ℕ) :
    SpeechUtils.check_file_size sizeBytes max_size_mb =
      Audio2TextUtils.check_file_size sizeBytes max_size_mb
    ∧ (SpeechUtils.check_file_size sizeBytes max_size_mb = true ↔
        (sizeBytes : ℚ) / (1024 * 1024) > (max_size_mb : ℚ)) :=
  ⟨rfl, by simp [SpeechUtils.check_file_size]⟩

/-- C5: `check_file_constraints` rejects any file over 25 MB regardless of
content and diarization; with `diarize = true` it also rejects any decoded
duration over 480 seconds; a decodable file within both limits passes. -/
theorem check_file_constraints_limits (sizeBytes : ℕ) (load : AudioLoad) (diarize : Bool) :
    (sizeBytes > 25 * 1024 * 1024 →
      (check_file_constraints sizeBytes load diarize).1 = false)
    ∧ (∀ ms, diarize = true → load = .ok ms → (ms : ℚ) / 1000 > 480 →
        (check_file_constraints sizeBytes load diarize).1 = false)
    ∧ (sizeBytes ≤ 25 * 1024 * 1024 → diarize = false →
        (check_file_constraints sizeBytes load diarize).1 = true)
    ∧ (∀ ms, sizeBytes ≤ 25 * 1024 * 1024 → load = .ok ms → (ms : ℚ) / 1000 ≤ 480 →
        (check_file_constraints sizeBytes load diarize).1 = true) := by
  refine ⟨?_, ?_, ?_, ?_⟩
  · intro h
    simp [check_file_constraints, h]
  · intro ms hd hl hdur
    subst hd; subst hl
    by_cases hs : sizeBytes > 25 * 1024 * 1024 <;>
      simp [check_file_constraints, hs, show (8 : ℚ) * 60 = 480 by norm_num, hdur]
  · intro hs hd
    subst hd
    simp [check_file_constraints, Nat.not_lt.mpr hs]
  · intro ms hs hl hdur
    subst hl
    cases diarize <;>
      simp [check_file_constraints, Nat.not_lt.mpr hs,
        show (8 : ℚ) * 60 = 480 by norm_num, not_lt.mpr hdur]

/-- C5 witness: the theorem applied at concrete sizes and durations. -/
theorem check_file_constraints_limits_witness :
    (check_file_constraints (26 * 1024 * 1024) (.ok 0) false).1 = false
    ∧ (check_file_constraints 1000 (.ok 500000) true).1 = false
    ∧ (check_file_constraints 1000 (.ok 100000) false).1 = true
    ∧ (check_file_constraints 1000 (.ok 100000) true).1 = true :=
  ⟨(check_file_constraints_limits (26 * 1024 * 1024) (.ok 0) false).1 (by norm_num),
   (check_file_constraints_limits 1000 (.ok 500000) true).2.1 500000 rfl rfl (by norm_num),
   (check_file_constraints_limits 1000 (.ok 100000) false).2.2.1 (by norm_num) rfl,
   (check_file_constraints_limits 1000 (.ok 100000) true).2.2.2 100000 (by norm_num) rfl
     (by norm_num)⟩

/-- C8: for every model in the price table, `calculate_cost` returns USD
cost `(input/1e6)*input_price + (output/1e6)*output_price` (cached-input
price when `is_cached`), an NTD cost exactly `USD * 31.5 = USD * 63/2`, and
zero cost at zero tokens. -/
theorem calculate_cost_formula (model_name : String) (cfg : ModelPrices)
    (h : MODEL_CONFIG model_name = some cfg)
    (input_tokens output_tokens : ℕ) (is_cached : Bool) :
    (calculate_cost input_tokens output_tokens model_name is_cached).1 =
      (input_tokens : ℚ) / 1000000 * (if is_cached then cfg.cached_input else cfg.input)
        + (output_tokens : ℚ) / 1000000 * cfg.output
    ∧ (calculate_cost input_tokens output_tokens model_name is_cached).2.1 =
        (calculate_cost input_tokens output_tokens model_name is_cached).1 * (63 / 2)
    ∧ (calculate_cost 0 0 model_name is_cached).1 = 0
    ∧ (calculate_cost 0 0 model_name is_cached).2.1 = 0 := by
  refine ⟨?_, ?_, ?_, ?_⟩ <;>
    simp [calculate_cost, h, USD_TO_NTD] <;>
    norm_num

/-- C8 witness: the formula at `gpt-4o`, 2M input and 1M output tokens. -/
theorem calculate_cost_formula_witness :
    (calculate_cost 2000000 1000000 "gpt-4o" false).1 =
      (2000000 : ℚ) / 1000000 * 2.50 + (1000000 : ℚ) / 1000000 * 10.00 :=
  (calculate_cost_formula "gpt-4o" ⟨"gpt-4o", 2.50, 1.25, 10.00⟩ rfl
    2000000 1000000 false).1

/-- Evaluation helper: once the control flow of a computation has reduced to
`.ok (some a)`, the payload can be identified by arithmetic. -/
theorem exc_ok_eval {ε α : Type} {x : Except ε (Option α)} {a b : α}
    (h : x = .ok (some a)) (hab : a = b) : x = .ok (some b) := hab ▸ h

/-- C2 counterexample: `parse_time_format` is not exception-free — on
`"1m2.3.4s"` the final branch's `float(match.group(2))` receives `"2.3.4"`
and raises an uncaught `ValueError`. -/
theorem parse_time_format_raises_cex :
    parse_time_format "1m2.3.4s".toList = .error () := by rfl

/-- C2 (corrected): the unified parser maps the six specified encodings to
`214.7, 214.7, 214.7, 38.0, 74.0, 268.0` seconds and an unrecognized string
such as `"abc"` to no value — but it can raise: a string whose `NmS.Fs`
match carries a multi-dot seconds group (e.g. `"1m2.3.4s"`) escapes with a
`ValueError` instead of returning `None`. -/
theorem parse_time_format_values :
    parse_time_format "t3m34.7s".toList = .ok (some (214.7 : ℚ))
    ∧ parse_time_format "214.7".toList = .ok (some (214.7 : ℚ))
    ∧ parse_time_format "214.7s".toList = .ok (some (214.7 : ℚ))
    ∧ parse_time_format "0:38".toList = .ok (some (38 : ℚ))
    ∧ parse_time_format "1:14".toList = .ok (some (74 : ℚ))
    ∧ parse_time_format "00:04:28".toList = .ok (some (268 : ℚ))
    ∧ parse_time_format "abc".toList = .ok none
    ∧ parse_time_format "1m2.3.4s".toList = .error () := by
  refine ⟨?_, ?_, ?_, ?_, ?_, ?_, rfl, rfl⟩ <;>
  · refine exc_ok_eval rfl ?_
    simp [digitsVal, fracVal]
    try norm_num

/-- C3 counterexample: on `"**bold __and underline__ too**"` no run carries
the underline flag at all — in particular no run is the claimed underlined
`"and underline"` — because the bold alternative consumes the whole span and
the tokenizer does not recurse into it. -/
theorem add_formatted_text_nested_cex :
    (add_formatted_text "**bold __and underline__ too**".toList).all
        (fun r => !r.underline) = true
    ∧ ¬ ∃ r ∈ add_formatted_text "**bold __and underline__ too**".toList,
        r.underline = true ∧ r.text = "and underline".toList := by
  exact ⟨by rfl, by decide⟩

/-- C3 (corrected): `_add_formatted_text` renders
`"**bold __and underline__ too**"` as a single bold run whose text retains
the literal `__and underline__` markers; the inner double-underline is never
resolved, since the regex split tokenizes non-recursively and the whole
string already matches the bold alternative. -/
theorem add_formatted_text_bold_flat :
    add_formatted_text "**bold __and underline__ too**".toList =
      [⟨"bold __and underline__ too".toList, true, false, false⟩] := by rfl

/-- C10 counterexample: an empty `language_code` string is provided and does
not match the three-letter pattern, yet no `ValueError` is raised — Python's
truthiness test treats `""` as absent, so the call proceeds (here: to an
unreadable file, returning `None`). -/
theorem transcribe_audio_empty_code_cex :
    transcribe_audio (some "") true ⟨false, false, 0, ""⟩ = .returnsNone
    ∧ ("" : String).length ≠ 3 := by
  exact ⟨rfl, by decide⟩

/-- C10 (corrected): for every provided non-empty `language_code` rejected
by the `^[a-z]{3}$` check (three lowercase letters, with Python's `$` also
accepting one trailing newline), `transcribe_audio` raises `ValueError`
whatever the file or network would do — i.e. before any I/O; expected
failures (unreadable file, request/SSL exception, non-200 status) return
`None`; and when `language_code` is omitted, or empty hence falsy, the form
data carries no `language_code` field. -/
theorem transcribe_audio_language_gate :
    (∀ (s : String) (d : Bool) (env : TranscribeEnv),
      s ≠ "" → iso639_3_match s = false →
      transcribe_audio (some s) d env = .raisesValueError)
    ∧ (∀ (lc : Option String) (d : Bool) (env : TranscribeEnv)
        (fd : List (String × String)),
      buildFormData lc d = .ok fd →
      (env.fileReadable = false ∨ env.requestExn = true ∨ env.status ≠ 200) →
      transcribe_audio lc d env = .returnsNone)
    ∧ (∀ (d : Bool) (fd : List (String × String)),
      buildFormData none d = .ok fd → ∀ p ∈ fd, p.1 ≠ "language_code")
    ∧ (∀ (d : Bool) (fd : List (String × String)),
      buildFormData (some "") d = .ok fd → ∀ p ∈ fd, p.1 ≠ "language_code") := by
  refine ⟨?_, ?_, ?_, ?_⟩
  · intro s d env hne hiso
    simp [transcribe_audio, buildFormData, hne, hiso]
  · intro lc d env fd h hfail
    rcases env with ⟨fr, rq, st, bd⟩
    rcases hfail with h1 | h1 | h1
    · simp at h1
      simp [transcribe_audio, h, h1]
    · simp at h1
      cases fr <;> simp [transcribe_audio, h, h1]
    · cases fr <;> cases rq <;> simp [transcribe_audio, h, h1]
  · intro d fd h p hp
    cases d <;>
      (simp [buildFormData] at h; subst h; revert p hp; decide)
  · intro d fd h p hp
    cases d <;>
      (simp [buildFormData] at h; subst h; revert p hp; decide)

/-- C10 witness: the gate theorem at a rejected code `"EN"`, at an omitted
code with an unreadable file, and at the omitted-code form data. -/
theorem transcribe_audio_language_gate_witness :
    transcribe_audio (some "EN") false ⟨true, false, 200, "r"⟩ = .raisesValueError
    ∧ transcribe_audio none true ⟨false, false, 200, ""⟩ = .returnsNone
    ∧ ∀ p ∈ [("model_id", "scribe_v1"), ("diarize", "true"),
        ("tag_audio_events", "true"), ("timestamps_granularity", "word")],
        Prod.fst p ≠ "language_code" :=
  ⟨transcribe_audio_language_gate.1 "EN" false ⟨true, false, 200, "r"⟩ (by decide) rfl,
   transcribe_audio_language_gate.2.1 none true ⟨false, false, 200, ""⟩ _ rfl (Or.inl rfl),
   transcribe_audio_language_gate.2.2.1 true _ rfl⟩

/-- The fold inside `pyMinKey` returns an element of `c :: ks` whose
distance to the target is minimal, scanning left to right. -/
theorem foldl_closest_spec (target : ℚ) (ks : List ℚ) : ∀ c : ℚ,
    ks.foldl (fun c x => if |x - target| < |c - target| then x else c) c ∈ c :: ks
    ∧ |ks.foldl (fun c x => if |x - target| < |c - target| then x else c) c - target|
        ≤ |c - target|
    ∧ ∀ u ∈ ks,
        |ks.foldl (fun c x => if |x - target| < |c - target| then x else c) c - target|
          ≤ |u - target| := by
  induction ks with
  | nil =>
    intro c
    exact ⟨List.mem_cons_self c [], le_refl _, by simp⟩
  | cons x ks ih =>
    intro c
    simp only [List.foldl_cons]
    by_cases hx : |x - target| < |c - target|
    · rw [if_pos hx]
      rcases ih x with ⟨hmem, hle, hall⟩
      refine ⟨?_, ?_, ?_⟩
      · rcases List.mem_cons.mp hmem with h | h
        · rw [h]
          exact List.mem_cons_of_mem _ (List.mem_cons_self _ _)
        · exact List.mem_cons_of_mem _ (List.mem_cons_of_mem _ h)
      · exact le_trans hle (le_of_lt hx)
      · intro u hu
        rcases List.mem_cons.mp hu with h | h
        · subst h
          exact hle
        · exact hall u h
    · rw [if_neg hx]
      rcases ih c with ⟨hmem, hle, hall⟩
      refine ⟨?_, ?_, ?_⟩
      · rcases List.mem_cons.mp hmem with h | h
        · rw [h]
          exact List.mem_cons_self _ _
        · exact List.mem_cons_of_mem _ (List.mem_cons_of_mem _ h)
      · exact hle
      · intro u hu
        rcases List.mem_cons.mp hu with h | h
        · subst h
          exact le_trans hle (not_lt.mp hx)
        · exact hall u h

/-- The Python `min(keys, key=...)` over a non-empty key list returns a key
with minimal distance to the target. -/
theorem pyMinKey_spec (target : ℚ) (keys : List ℚ) (hk : keys ≠ []) :
    ∃ c, pyMinKey target keys = some c ∧ c ∈ keys ∧
      ∀ u ∈ keys, |c - target| ≤ |u - target| := by
  match keys, hk with
  | k :: ks, _ =>
    rcases foldl_closest_spec target ks k with ⟨hmem, hle, hall⟩
    refine ⟨_, rfl, hmem, ?_⟩
    intro u hu
    rcases List.mem_cons.mp hu with h | h
    · exact h ▸ hle
    · exact hall u h

/-- C1 (corrected): all three merge functions pick a stored timestamp with
minimal `|stored - T|` and embed an image exactly when that minimum
difference is strictly below 30 seconds — the boundary case of exactly 30 is
rejected, not accepted as the claim stated. -/
theorem closest_match_resolution :
    (∀ (slide_images : List (ℚ × String)) (target_time : ℚ), slide_images ≠ [] →
      ∃ closest, pyMinKey target_time (slide_images.map Prod.fst) = some closest
        ∧ closest ∈ slide_images.map Prod.fst
        ∧ (∀ u ∈ slide_images.map Prod.fst,
            |closest - target_time| ≤ |u - target_time|)
        ∧ save_markdown_match slide_images target_time =
            (if |closest - target_time| < 30 then some closest else none))
    ∧ (∀ (all_slide_images : List (ℚ × List (ℕ × String))) (target_time : ℚ),
        all_slide_images ≠ [] →
      ∃ closest, pyMinKey target_time (all_slide_images.map Prod.fst) = some closest
        ∧ closest ∈ all_slide_images.map Prod.fst
        ∧ (∀ u ∈ all_slide_images.map Prod.fst,
            |closest - target_time| ≤ |u - target_time|)
        ∧ insert_image_markdown_match all_slide_images target_time =
            (if |closest - target_time| < 30 then some closest else none)
        ∧ insert_image_docx_match all_slide_images target_time =
            (if |closest - target_time| < 30 then some closest else none)) := by
  constructor
  · intro imgs T h
    have hk : imgs.map Prod.fst ≠ [] := by
      simpa using h
    rcases pyMinKey_spec T (imgs.map Prod.fst) hk with ⟨c, hmin, hmem, hall⟩
    exact ⟨c, hmin, hmem, hall, by rw [save_markdown_match, hmin]⟩
  · intro imgs T h
    have hk : imgs.map Prod.fst ≠ [] := by
      simpa using h
    rcases pyMinKey_spec T (imgs.map Prod.fst) hk with ⟨c, hmin, hmem, hall⟩
    exact ⟨c, hmin, hmem, hall, by rw [insert_image_markdown_match, hmin],
      by rw [insert_image_docx_match, hmin]⟩

/-- C1 witness: with stored timestamps 10 and 50 and target 35, the nearest
stored time 50 (difference 15) is selected and embedded, in all three
functions. -/
theorem closest_match_resolution_witness :
    save_markdown_match [((10 : ℚ), "a.jpg"), (50, "b.jpg")] 35 = some 50
    ∧ insert_image_markdown_match [((10 : ℚ), [(0, "a.jpg")]), (50, [(1, "b.jpg")])] 35 =
        some 50
    ∧ insert_image_docx_match [((10 : ℚ), [(0, "a.jpg")]), (50, [(1, "b.jpg")])] 35 =
        some 50 := by
  have h50 : |(50 : ℚ) - 35| = 15 := by
    rw [abs_of_nonneg] <;> norm_num
  have h10 : |(10 : ℚ) - 35| = 25 := by
    rw [abs_of_nonpos] <;> norm_num
  have hmin1 : pyMinKey 35 ([((10 : ℚ), "a.jpg"), (50, "b.jpg")].map Prod.fst) = some 50 := by
    simp [pyMinKey, h50, h10, show (15 : ℚ) < 25 by norm_num]
  have hmin2 : pyMinKey 35
      ([((10 : ℚ), [(0, "a.jpg")]), (50, [(1, "b.jpg")])].map Prod.fst) = some 50 := by
    simp [pyMinKey, h50, h10, show (15 : ℚ) < 25 by norm_num]
  obtain ⟨c1, hm1, -, -, he1⟩ :=
    closest_match_resolution.1 [((10 : ℚ), "a.jpg"), (50, "b.jpg")] 35 (by simp)
  obtain ⟨c2, hm2, -, -, he2, he3⟩ :=
    closest_match_resolution.2 [((10 : ℚ), [(0, "a.jpg")]), (50, [(1, "b.jpg")])] 35
      (by simp)
  have hc1 : c1 = 50 := Option.some.inj (hm1.symm.trans hmin1)
  have hc2 : c2 = 50 := Option.some.inj (hm2.symm.trans hmin2)
  subst hc1; subst hc2
  rw [he1, he2, he3, if_pos (by rw [h50]; norm_num)]
  exact ⟨rfl, rfl, rfl⟩

/-- C1 counterexample: with a single stored timestamp 0 and target 30, the
minimum difference is exactly the 30-second tolerance, yet `save_markdown`
leaves the line without an image — the comparison is strict, so a difference
of exactly 30 seconds is not accepted. -/
theorem tolerance_boundary_cex :
    save_markdown_match [((0 : ℚ), "slide_t0m0.0s.jpg")] 30 = none
    ∧ |(0 : ℚ) - 30| ≤ 30 := by
  have h : |(0 : ℚ) - 30| = 30 := by
    rw [abs_of_nonpos] <;> norm_num
  constructor
  · simp [save_markdown_match, pyMinKey, h]
  · rw [h]

/-- The first element surviving `dropWhile p` fails `p`. -/
theorem head_dropWhile_false (p : Char → Bool) :
    ∀ (l : List Char) (c : Char), (l.dropWhile p).head? = some c → p c = false := by
  intro l
  induction l with
  | nil => simp [List.dropWhile]
  | cons a l ih =>
    intro c h
    by_cases hpa : p a = true
    · rw [List.dropWhile_cons_of_pos hpa] at h
      exact ih c h
    · rw [List.dropWhile_cons_of_neg hpa] at h
      simp only [List.head?_cons, Option.some.injEq] at h
      rw [← h]
      exact Bool.eq_false_iff.mpr hpa

/-- Dropping a while-matched head keeps the last element when anything survives. -/
theorem getLast?_dropWhile (p : Char → Bool) :
    ∀ l : List Char, l.dropWhile p ≠ [] → (l.dropWhile p).getLast? = l.getLast? := by
  intro l
  induction l with
  | nil => simp
  | cons a l ih =>
    intro hne
    by_cases hpa : p a = true
    · rw [List.dropWhile_cons_of_pos hpa] at hne ⊢
      rw [ih hne]
      have hl : l ≠ [] := by
        intro h
        rw [h] at hne
        simp [List.dropWhile] at hne
      match l, hl with
      | b :: l', _ => rw [List.getLast?_cons_cons]
    · rw [List.dropWhile_cons_of_neg hpa]

/-- A non-empty `pyStrip` result starts with a non-whitespace character. -/
theorem pyStrip_head_not_ws (l : List Char) (c : Char)
    (h : (pyStrip l).head? = some c) : isPyWs c = false := by
  unfold pyStrip at h
  rw [List.head?_reverse] at h
  have hne : ((l.dropWhile isPyWs).reverse.dropWhile isPyWs) ≠ [] := by
    intro hnil
    rw [hnil] at h
    simp at h
  rw [getLast?_dropWhile isPyWs _ hne, List.getLast?_reverse] at h
  exact head_dropWhile_false isPyWs _ c h

/-- A non-empty `pyStrip` result ends with a non-whitespace character. -/
theorem pyStrip_getLast_not_ws (l : List Char) (c : Char)
    (h : (pyStrip l).getLast? = some c) : isPyWs c = false := by
  unfold pyStrip at h
  rw [List.getLast?_reverse] at h
  exact head_dropWhile_false isPyWs _ c h

/-- C7 (corrected): `extract_keywords` returns `[]` on API failure and
otherwise one keyword per non-blank response line, each stripped of
surrounding whitespace and non-empty; the list is never padded — its length
is bounded by the number of response lines — but nothing caps it at `count`:
the requested count only shapes the prompt. -/
theorem extract_keywords_amended (count : ℕ) (response : Option (List Char)) :
    (response = none → extract_keywords count response = [])
    ∧ (∀ text, response = some text →
        (extract_keywords count response).length ≤
          (splitOn ['\n'] (pyStrip text)).length)
    ∧ (∀ kw ∈ extract_keywords count response,
        kw ≠ []
        ∧ (∀ c, kw.head? = some c → isPyWs c = false)
        ∧ (∀ c, kw.getLast? = some c → isPyWs c = false)) := by
  refine ⟨?_, ?_, ?_⟩
  · intro h
    rw [h]
    rfl
  · intro text h
    rw [h]
    exact List.length_filterMap_le _ _
  · intro kw hkw
    match response with
    | none => simp [extract_keywords] at hkw
    | some text =>
      rw [extract_keywords] at hkw
      rcases List.mem_filterMap.mp hkw with ⟨a, _, ha⟩
      by_cases hne : pyStrip a ≠ []
      · rw [if_pos hne] at ha
        rcases Option.some.inj ha with rfl
        exact ⟨hne, fun c hc => pyStrip_head_not_ws a c hc,
          fun c hc => pyStrip_getLast_not_ws a c hc⟩
      · rw [if_neg hne] at ha
        exact absurd ha (Option.noConfusion)

/-- C7 witness: the theorem applied to an API failure, to a two-line
response, and to the keyword produced by the response `" a \nb"`. -/
theorem extract_keywords_amended_witness :
    extract_keywords 10 none = []
    ∧ (extract_keywords 10 (some (" a \nb".toList))).length ≤
        (splitOn ['\n'] (pyStrip (" a \nb".toList))).length
    ∧ ("a".toList ≠ []
        ∧ (∀ c, "a".toList.head? = some c → isPyWs c = false)
        ∧ (∀ c, "a".toList.getLast? = some c → isPyWs c = false)) :=
  ⟨(extract_keywords_amended 10 none).1 rfl,
   (extract_keywords_amended 10 (some (" a \nb".toList))).2.1 (" a \nb".toList) rfl,
   (extract_keywords_amended 10 (some (" a \nb".toList))).2.2 ("a".toList) (by decide)⟩

/-- C7 counterexample: an eleven-line response makes `extract_keywords`
return eleven keywords even though `count = 10` — the result is not capped
at the requested count. -/
theorem extract_keywords_count_cex :
    (extract_keywords 10
      (some ("k1\nk2\nk3\nk4\nk5\nk6\nk7\nk8\nk9\nk10\nk11".toList))).length = 11 := by
  decide

/-- Unfolding of the segmentation loop while the cursor is before the end. -/
theorem segmentsFrom_of_lt {D s : ℚ} (h : s < D) :
    segmentsFrom D s =
      ((if 0 < s then s - 30 else s), min (s + 600) D) ::
        segmentsFrom D (min (s + 600) D) := by
  rw [segmentsFrom]
  rw [dif_pos h]

/-- The segmentation loop stops once the cursor reaches the duration. -/
theorem segmentsFrom_of_ge {D s : ℚ} (h : ¬ s < D) : segmentsFrom D s = [] := by
  rw [segmentsFrom]
  rw [dif_neg h]

/-- The pair emitted for cursor position `600 * i` is the claimed segment. -/
theorem segSpec_head_eq (D : ℚ) (i : ℕ) :
    ((if 0 < (600 : ℚ) * (i : ℚ) then (600 : ℚ) * (i : ℚ) - 30 else (600 : ℚ) * (i : ℚ)),
      min ((600 : ℚ) * (i : ℚ) + 600) D) = segSpec D i := by
  unfold segSpec
  simp only [Prod.mk.injEq]
  constructor
  · by_cases h0 : i = 0
    · subst h0
      simp
    · have hpos : (0 : ℚ) < 600 * (i : ℚ) := by
        have : (0 : ℚ) < (i : ℚ) := by
          exact_mod_cast Nat.pos_of_ne_zero h0
        nlinarith
      rw [if_pos hpos, if_neg h0]
  · congr 1
    push_cast
    ring

/-- Closed form of the segmentation loop from cursor `600 * i`: one segment
per remaining window index. -/
theorem segmentsFrom_closed (D : ℚ) :
    ∀ (k i : ℕ), (⌈D / 600⌉).toNat - i = k → (600 : ℚ) * (i : ℚ) < D →
      segmentsFrom D (600 * (i : ℚ)) = (List.range' i k).map (segSpec D) := by
  intro k
  induction k with
  | zero =>
    intro i hk hi
    exfalso
    have h1 : ((i : ℚ)) < D / 600 := by
      rw [lt_div_iff (show (0 : ℚ) < 600 by norm_num)]
      linarith
    have h2 : (i : ℤ) < ⌈D / 600⌉ := by
      rw [Int.lt_ceil]
      exact_mod_cast h1
    omega
  | succ k ih =>
    intro i hk hi
    have hd1 : ((i : ℚ)) < D / 600 := by
      rw [lt_div_iff (show (0 : ℚ) < 600 by norm_num)]
      linarith
    have hlt_ceil : (i : ℤ) < ⌈D / 600⌉ := by
      rw [Int.lt_ceil]
      exact_mod_cast hd1
    have hstep : (600 : ℚ) * (i : ℚ) + 600 = 600 * ((i + 1 : ℕ) : ℚ) := by
      push_cast
      ring
    rw [segmentsFrom_of_lt hi, segSpec_head_eq]
    rcases lt_or_le ((600 : ℚ) * ((i + 1 : ℕ) : ℚ)) D with hlt | hge
    · have hminEq : min ((600 : ℚ) * (i : ℚ) + 600) D = 600 * ((i + 1 : ℕ) : ℚ) := by
        rw [hstep]
        exact min_eq_left hlt.le
      rw [hminEq, ih (i + 1) (by omega) hlt, List.range'_succ, List.map_cons]
    · have hminEq : min ((600 : ℚ) * (i : ℚ) + 600) D = D := by
        rw [hstep]
        exact min_eq_right hge
      rw [hminEq, segmentsFrom_of_ge (lt_irrefl D)]
      have hceil : ⌈D / 600⌉ = (i : ℤ) + 1 := by
        rw [Int.ceil_eq_iff]
        constructor
        · push_cast
          simpa using hd1
        · rw [div_le_iff (show (0 : ℚ) < 600 by norm_num)]
          push_cast at hge ⊢
          linarith
      have hk0 : k = 0 := by omega
      subst hk0
      rfl

/-- C6: for a duration over 600 seconds, the fixed-window loop produces
exactly `⌈D/600⌉` segments; segment 0 covers `[0, min(600, D))` and segment
`i > 0` covers `[600*i - 30, min(600*(i+1), D))` (this is the list, in index
order); consecutive segments overlap by exactly 30 seconds; and every moment
in `[0, D)` is covered by some segment. -/
theorem fixed_window_segmentation (D : ℚ) (hD : 600 < D) :
    segmentsFrom D 0 = (List.range' 0 (⌈D / 600⌉).toNat).map (segSpec D)
    ∧ (segmentsFrom D 0).length = (⌈D / 600⌉).toNat
    ∧ (∀ i : ℕ, i + 1 < (⌈D / 600⌉).toNat →
        (segSpec D (i + 1)).1 + 30 = (segSpec D i).2)
    ∧ (∀ x : ℚ, 0 ≤ x → x < D →
        ∃ i < (⌈D / 600⌉).toNat, (segSpec D i).1 ≤ x ∧ x < (segSpec D i).2) := by
  have hD0 : (0 : ℚ) < D := by linarith
  have hmain : segmentsFrom D 0 = (List.range' 0 (⌈D / 600⌉).toNat).map (segSpec D) := by
    have h := segmentsFrom_closed D ((⌈D / 600⌉).toNat) 0 (by omega) (by simpa using hD0)
    simpa using h
  refine ⟨hmain, ?_, ?_, ?_⟩
  · rw [hmain]
    simp
  · intro i hi
    have h1 : ((i : ℤ) + 1) < ⌈D / 600⌉ := by omega
    have h2 : ((i : ℚ) + 1) < D / 600 := by
      have h3 := Int.lt_ceil.mp h1
      exact_mod_cast h3
    have h4 : (600 : ℚ) * ((i : ℚ) + 1) ≤ D := by
      rw [lt_div_iff (show (0 : ℚ) < 600 by norm_num)] at h2
      linarith
    unfold segSpec
    rw [if_neg (Nat.succ_ne_zero i), min_eq_left h4]
    dsimp only
    push_cast
    ring
  · intro x hx0 hxD
    have hxnn : (0 : ℚ) ≤ x / 600 := by positivity
    have hfl : ((⌊x / 600⌋₊ : ℚ)) ≤ x / 600 := Nat.floor_le hxnn
    have hfu : x / 600 < (⌊x / 600⌋₊ : ℚ) + 1 := Nat.lt_floor_add_one _
    have hiD : ((⌊x / 600⌋₊ : ℚ)) < D / 600 :=
      lt_of_le_of_lt hfl ((div_lt_div_right (show (0 : ℚ) < 600 by norm_num)).mpr hxD)
    have hiZ : ((⌊x / 600⌋₊ : ℕ) : ℤ) < ⌈D / 600⌉ := Int.lt_ceil.mpr (by exact_mod_cast hiD)
    refine ⟨⌊x / 600⌋₊, by omega, ?_, ?_⟩
    · unfold segSpec
      by_cases h0 : ⌊x / 600⌋₊ = 0
      · rw [if_pos h0]
        exact hx0
      · rw [if_neg h0]
        rw [le_div_iff (show (0 : ℚ) < 600 by norm_num)] at hfl
        linarith
    · unfold segSpec
      apply lt_min
      · rw [div_lt_iff (show (0 : ℚ) < 600 by norm_num)] at hfu
        push_cast
        linarith
      · exact hxD

/-- C6 witness: the segmentation facts at the concrete duration 1500. -/
theorem fixed_window_segmentation_witness :
    (600 : ℚ) < 1500 ∧ (segmentsFrom 1500 0).length = (⌈(1500 : ℚ) / 600⌉).toNat :=
  ⟨by norm_num, (fixed_window_segmentation 1500 (by norm_num)).2.1⟩

/-- A list is a Boolean prefix of itself followed by anything. -/
theorem isPrefixOf_append_self : ∀ sep rest : List Char,
    sep.isPrefixOf (sep ++ rest) = true := by
  intro sep rest
  induction sep with
  | nil => simp [List.isPrefixOf]
  | cons a s ih => simp [List.isPrefixOf, ih]

/-- The split `splitOnF` ignores the exact fuel as long as it covers the input. -/
theorem splitOnF_fuel_irrel (sep : List Char) (hsep : sep ≠ []) :
    ∀ (f1 : ℕ) (l : List Char) (f2 : ℕ), l.length ≤ f1 → l.length ≤ f2 →
      splitOnF sep f1 l = splitOnF sep f2 l := by
  intro f1
  induction f1 with
  | zero =>
    intro l f2 h1 _
    have hl : l = [] := List.length_eq_zero.mp (Nat.le_zero.mp h1)
    subst hl
    cases f2 <;> rfl
  | succ f ih =>
    intro l f2 h1 h2
    match l with
    | [] => cases f2 <;> rfl
    | c :: rest =>
      obtain ⟨g, rfl⟩ : ∃ g, f2 = g + 1 := by
        cases f2 with
        | zero => simp at h2
        | succ g => exact ⟨g, rfl⟩
      have hsl : 1 ≤ sep.length := by
        cases sep with
        | nil => exact absurd rfl hsep
        | cons s0 s => simp
      simp only [splitOnF]
      by_cases hp : sep ≠ [] ∧ sep.isPrefixOf (c :: rest)
      · rw [if_pos hp, if_pos hp]
        have hlen : ((c :: rest).drop sep.length).length ≤ f := by
          simp only [List.length_drop, List.length_cons]
          simp only [List.length_cons] at h1
          omega
        have hlen2 : ((c :: rest).drop sep.length).length ≤ g := by
          simp only [List.length_drop, List.length_cons]
          simp only [List.length_cons] at h2
          omega
        rw [ih ((c :: rest).drop sep.length) g hlen hlen2]
      · rw [if_neg hp, if_neg hp]
        have hlen : rest.length ≤ f := by
          simp only [List.length_cons] at h1
          omega
        have hlen2 : rest.length ≤ g := by
          simp only [List.length_cons] at h2
          omega
        rw [ih rest g hlen hlen2]

/-- Without any occurrence of the separator, Python `split` returns the
whole string as its only part. -/
theorem splitOnF_no_occ (sep : List Char) (hsep : sep ≠ []) :
    ∀ (fuel : ℕ) (l : List Char), l.length ≤ fuel →
      (∀ k < l.length, sep.isPrefixOf (l.drop k) = false) →
      splitOnF sep fuel l = [l] := by
  intro fuel
  induction fuel with
  | zero =>
    intro l h1 _
    have hl : l = [] := List.length_eq_zero.mp (Nat.le_zero.mp h1)
    subst hl
    rfl
  | succ f ih =>
    intro l h1 hocc
    match l with
    | [] => rfl
    | c :: rest =>
      have hnp : ¬ (sep ≠ [] ∧ sep.isPrefixOf (c :: rest)) := by
        rintro ⟨-, hpre⟩
        have h0 := hocc 0 (by simp)
        rw [List.drop_zero] at h0
        rw [h0] at hpre
        exact Bool.false_ne_true hpre
      simp only [splitOnF]
      rw [if_neg hnp]
      have hrest : splitOnF sep f rest = [rest] := by
        refine ih rest ?_ ?_
        · simp only [List.length_cons] at h1
          omega
        · intro k hk
          have := hocc (k + 1) (by simp only [List.length_cons]; omega)
          simpa using this
      rw [hrest]

/-- When the first occurrence of the separator in `A ++ sep ++ B` is exactly
at position `A.length`, Python `split` peels off `A` and continues in `B`. -/
theorem splitOnF_first_occ (sep : List Char) (hsep : sep ≠ []) :
    ∀ (A : List Char) (fuel : ℕ) (B : List Char), (A ++ sep ++ B).length ≤ fuel →
      (∀ k < A.length, sep.isPrefixOf ((A ++ sep ++ B).drop k) = false) →
      splitOnF sep fuel (A ++ sep ++ B) = A :: splitOn sep B := by
  have hsl : 1 ≤ sep.length := by
    cases sep with
    | nil => exact absurd rfl hsep
    | cons s0 s => simp
  intro A
  induction A with
  | nil =>
    intro fuel B hlen hocc
    simp only [List.nil_append] at hlen ⊢
    match sep, hsep with
    | s0 :: sep', _ =>
      match fuel with
      | 0 => simp at hlen
      | f + 1 =>
        have hcons : (s0 :: sep') ++ B = s0 :: (sep' ++ B) := rfl
        rw [hcons]
        simp only [splitOnF]
        rw [if_pos ⟨by simp, by rw [← hcons]; exact isPrefixOf_append_self _ _⟩]
        have hdrop : (s0 :: (sep' ++ B)).drop (s0 :: sep').length = B := by
          rw [← hcons]
          exact List.drop_left _ _
        rw [hdrop]
        have hBf : B.length ≤ f := by
          simp only [List.length_append, List.length_cons] at hlen
          omega
        rw [splitOnF_fuel_irrel (s0 :: sep') (List.cons_ne_nil s0 sep') f B B.length hBf
          (le_refl _)]
        rfl
  | cons a A' ih =>
    intro fuel B hlen hocc
    match fuel with
    | 0 => simp at hlen
    | f + 1 =>
      have hcons : (a :: A') ++ sep ++ B = a :: (A' ++ sep ++ B) := by simp
      rw [hcons]
      have hnp : ¬ (sep ≠ [] ∧ sep.isPrefixOf (a :: (A' ++ sep ++ B))) := by
        rintro ⟨-, hpre⟩
        have h0 := hocc 0 (by simp)
        rw [List.drop_zero, hcons] at h0
        rw [h0] at hpre
        exact Bool.false_ne_true hpre
      simp only [splitOnF]
      rw [if_neg hnp]
      have hrec : splitOnF sep f (A' ++ sep ++ B) = A' :: splitOn sep B := by
        refine ih f B ?_ ?_
        · rw [hcons] at hlen
          simp only [List.length_cons] at hlen
          omega
        · intro k hk
          have := hocc (k + 1) (by simp only [List.length_cons]; omega)
          rw [hcons] at this
          simpa using this
      rw [hrec]

/-- Splitting a separator-free string yields the string itself. -/
theorem splitOn_eq_single (sep : List Char) (hsep : sep ≠ []) (l : List Char)
    (hocc : ∀ k < l.length, sep.isPrefixOf (l.drop k) = false) :
    splitOn sep l = [l] :=
  splitOnF_no_occ sep hsep l.length l (le_refl _) hocc

/-- Splitting at the first separator occurrence peels off the head part. -/
theorem splitOn_cons_of_first (sep : List Char) (hsep : sep ≠ []) (A B : List Char)
    (hocc : ∀ k < A.length, sep.isPrefixOf ((A ++ sep ++ B).drop k) = false) :
    splitOn sep (A ++ sep ++ B) = A :: splitOn sep B :=
  splitOnF_first_occ sep hsep A (A ++ sep ++ B).length B (le_refl _) hocc

/-- A string containing `sub` in the middle passes Python's `in` test. -/
theorem containsSub_of_middle (sub A B : List Char) :
    containsSub sub (A ++ sub ++ B) = true := by
  rw [containsSub, List.any_eq_true]
  refine ⟨A.length, List.mem_range.mpr ?_, ?_⟩
  · simp only [List.length_append]
    omega
  · rw [List.append_assoc, List.drop_left]
    exact isPrefixOf_append_self sub B

/-- C4 (corrected): when the response contains one occurrence of each marker
with `[優化後文字]` before `[重點摘要]`, the split is exactly at the markers;
when the markers are not both present but the legacy `重點摘要：` delimiter
occurs once, the split falls back to it; with neither, the whole raw response
becomes `corrected` and the summary is the fixed sentinel. (When both markers
are present but `[優化後文字]` does not precede `[重點摘要]`, the indexing
raises and the function returns `None`; see the counterexample.) -/
theorem refine_gemini_parse_amended :
    (∀ A B C : List Char,
      (∀ k < A.length, optMarker.isPrefixOf ((A ++ optMarker ++ B).drop k) = false) →
      (∀ k < B.length, optMarker.isPrefixOf (B.drop k) = false) →
      (∀ k < (A ++ optMarker ++ B).length,
        sumMarker.isPrefixOf (((A ++ optMarker ++ B) ++ sumMarker ++ C).drop k) = false) →
      (∀ k < C.length, sumMarker.isPrefixOf (C.drop k) = false) →
      refine_transcript_gemini_parse ((A ++ optMarker ++ B) ++ sumMarker ++ C) =
        some (pyStrip B, pyStrip C))
    ∧ (∀ P Q : List Char,
      (containsSub optMarker (P ++ legacyMarker ++ Q) &&
        containsSub sumMarker (P ++ legacyMarker ++ Q)) = false →
      (∀ k < P.length, legacyMarker.isPrefixOf ((P ++ legacyMarker ++ Q).drop k) = false) →
      (∀ k < Q.length, legacyMarker.isPrefixOf (Q.drop k) = false) →
      refine_transcript_gemini_parse (P ++ legacyMarker ++ Q) =
        some (pyStrip P, pyStrip Q))
    ∧ (∀ text : List Char,
      (containsSub optMarker text && containsSub sumMarker text) = false →
      (∀ k < text.length, legacyMarker.isPrefixOf (text.drop k) = false) →
      refine_transcript_gemini_parse text = some (text, noSummarySentinel)) := by
  have hopt : optMarker ≠ [] := by decide
  have hsum : sumMarker ≠ [] := by decide
  have hleg : legacyMarker ≠ [] := by decide
  refine ⟨?_, ?_, ?_⟩
  · intro A B C h1 h2 h3 h4
    have hc1 : containsSub optMarker ((A ++ optMarker ++ B) ++ sumMarker ++ C) = true := by
      have h := containsSub_of_middle optMarker A (B ++ sumMarker ++ C)
      simpa [List.append_assoc] using h
    have hc2 : containsSub sumMarker ((A ++ optMarker ++ B) ++ sumMarker ++ C) = true :=
      containsSub_of_middle sumMarker (A ++ optMarker ++ B) C
    have hs1 : splitOn sumMarker ((A ++ optMarker ++ B) ++ sumMarker ++ C) =
        (A ++ optMarker ++ B) :: splitOn sumMarker C :=
      splitOn_cons_of_first sumMarker hsum _ _ h3
    have hsC : splitOn sumMarker C = [C] := splitOn_eq_single sumMarker hsum C h4
    have hs0 : splitOn optMarker (A ++ optMarker ++ B) = A :: splitOn optMarker B :=
      splitOn_cons_of_first optMarker hopt _ _ h1
    have hsB : splitOn optMarker B = [B] := splitOn_eq_single optMarker hopt B h2
    have hs0' : splitOn optMarker (A ++ (optMarker ++ B)) = A :: splitOn optMarker B := by
      rw [← List.append_assoc]
      exact hs0
    rw [refine_transcript_gemini_parse]
    rw [hc1, hc2, hs1, hsC]
    simp [hs0', hsB]
  · intro P Q hfalse hP hQ
    have hs : splitOn legacyMarker (P ++ legacyMarker ++ Q) = P :: splitOn legacyMarker Q :=
      splitOn_cons_of_first legacyMarker hleg _ _ hP
    have hsQ : splitOn legacyMarker Q = [Q] := splitOn_eq_single legacyMarker hleg Q hQ
    rw [refine_transcript_gemini_parse, hfalse, hs, hsQ]
    simp
  · intro text hfalse hocc
    have hs : splitOn legacyMarker text = [text] :=
      splitOn_eq_single legacyMarker hleg text hocc
    rw [refine_transcript_gemini_parse, hfalse, hs]
    simp

/-- C4 witness: the three branches at concrete responses — marked, legacy,
and plain. -/
theorem refine_gemini_parse_amended_witness :
    refine_transcript_gemini_parse
        (("x ".toList ++ optMarker ++ " ok ".toList) ++ sumMarker ++ " s".toList) =
      some (pyStrip " ok ".toList, pyStrip " s".toList)
    ∧ refine_transcript_gemini_parse ("pre".toList ++ legacyMarker ++ "post".toList) =
        some (pyStrip "pre".toList, pyStrip "post".toList)
    ∧ refine_transcript_gemini_parse "plain".toList = some ("plain".toList, noSummarySentinel) :=
  ⟨refine_gemini_parse_amended.1 "x ".toList " ok ".toList " s".toList
      (by decide) (by decide) (by decide) (by decide),
   refine_gemini_parse_amended.2.1 "pre".toList "post".toList
      (by decide) (by decide) (by decide),
   refine_gemini_parse_amended.2.2 "plain".toList (by decide) (by decide)⟩

/-- C4 counterexample: a response that contains both markers, but with
`[重點摘要]` first, makes `parts[0].split("[優化後文字]")[1]` raise an
`IndexError`, so the function returns `None` instead of the claimed
corrected/summary pair. -/
theorem refine_gemini_order_cex :
    containsSub optMarker (sumMarker ++ "s".toList ++ optMarker ++ "c".toList) = true
    ∧ containsSub sumMarker (sumMarker ++ "s".toList ++ optMarker ++ "c".toList) = true
    ∧ refine_transcript_gemini_parse (sumMarker ++ "s".toList ++ optMarker ++ "c".toList) =
        none := by
  refine ⟨rfl, rfl, rfl⟩
